import Mathlib

/-!
Verification of the control core of the `bubuku` supervisor
(`bubuku/zookeeper.py`, `bubuku/broker.py`, `bubuku/controller.py`,
`bubuku/features/swap_partitions.py`) against its specification.

The coordination store is modelled as an association list from paths to JSON
values; Python dictionaries appearing in the code are modelled as association
lists preserving insertion order; machine-level effects (process signals,
logging) are outside the claims and are not modelled.  Fallible Python code
(uncaught exceptions) is modelled with `Except`.
-/

/- ### Association lists (model of Python `dict` and of the store) -/

/-- Lookup in an association list (Python `d[k]` / `k in d`). -/
def alookup {κ α : Type} [DecidableEq κ] : List (κ × α) → κ → Option α
  | [], _ => none
  | (k, v) :: rest, key => if k = key then some v else alookup rest key

/-- Assignment `d[k] = v`: replaces the value of an existing key in place,
appends a fresh key at the end — Python dict insertion-order semantics. -/
def aset {κ α : Type} [DecidableEq κ] : List (κ × α) → κ → α → List (κ × α)
  | [], key, val => [(key, val)]
  | (k, v) :: rest, key, val =>
    if k = key then (k, val) :: rest else (k, v) :: aset rest key val

/-- Deletion `del d[k]` (only ever applied to lists with distinct keys). -/
def aremove {κ α : Type} [DecidableEq κ] : List (κ × α) → κ → List (κ × α)
  | [], _ => []
  | (k, v) :: rest, key => if k = key then rest else (k, v) :: aremove rest key

/-- `d.get(k, [])`-style lookup used for dict-of-list accumulators. -/
def lookupD {κ α : Type} [DecidableEq κ] (d : List (κ × List α)) (k : κ) : List α :=
  (alookup d k).getD []

/-- Python `d.update(e)`: set every binding of `e` in `d`, in order. -/
def aupdate {κ α : Type} [DecidableEq κ] (d e : List (κ × α)) : List (κ × α) :=
  e.foldl (fun acc kv => aset acc kv.1 kv.2) d

/- ### JSON values and Python int() conversion -/

/-- JSON values as stored in the coordination store. -/
inductive J : Type
  | jnull : J
  | jstr : String → J
  | jint : Int → J
  | jarr : List J → J
  | jobj : List (String × J) → J

/-- Uncaught Python exceptions that the modelled code can raise. -/
inductive PyErr : Type
  | keyError : String → PyErr
  | valueError : PyErr
deriving DecidableEq

/-- The decimal value of a digit character, if it is one. -/
def digitVal (c : Char) : Option Nat :=
  if 48 ≤ c.toNat ∧ c.toNat ≤ 57 then some (c.toNat - 48) else none

/-- Decimal accumulation over characters; `none` on the first non-digit. -/
def parseNatAux : List Char → Nat → Option Nat
  | [], acc => some acc
  | c :: cs, acc =>
    match digitVal c with
    | none => none
    | some d => parseNatAux cs (10 * acc + d)

/-- A non-empty all-digit character list as a natural number. -/
def parseNat : List Char → Option Nat
  | [] => none
  | cs => parseNatAux cs 0

/-- Python `int(s)` on the decimal string forms that occur in this code:
an optional minus sign followed by digits; anything else raises. -/
def pyIntOfString (s : String) : Option Int :=
  match s.data with
  | '-' :: cs => (parseNat cs).map fun n => -(n : Int)
  | cs => (parseNat cs).map fun n => (n : Int)

/-- Python `int(x)` on the values that reach it in this code: an int is
returned unchanged, a numeric string is parsed, anything else raises. -/
def pyInt : J → Except PyErr Int
  | .jint n => .ok n
  | .jstr s =>
    match pyIntOfString s with
    | some n => .ok n
    | none => .error .valueError
  | _ => .error .valueError

/-- Effectful map over a list in the `Except` monad, defined by recursion so
that proofs can unfold it directly. -/
def mapME {α β : Type} (f : α → Except PyErr β) : List α → Except PyErr (List β)
  | [] => .ok []
  | a :: as =>
    match f a with
    | .error e => .error e
    | .ok b =>
      match mapME f as with
      | .error e => .error e
      | .ok bs => .ok (b :: bs)

/-- The store is a finite map from paths to JSON documents. -/
abbrev Store := List (String × J)

/-- The singleton reassignment node path used by the broker cluster. -/
def reassignPath : String := "/admin/reassign_partitions"

/- ### `BukuExhibitor.reallocate_partition` (bubuku/zookeeper.py) -/

/-- One entry of the wire JSON: `{"topic": t, "partition": int(p),
"replicas": [int(r) for r in rs]}`.  The conversions run while the document
is built, before the store is touched, exactly as in the source. -/
def wireEntry (t : String) (p : J) (rs : List J) : Except PyErr J :=
  match pyInt p with
  | .error e => .error e
  | .ok pn =>
    match mapME pyInt rs with
    | .error e => .error e
    | .ok rns =>
      .ok (J.jobj [("topic", J.jstr t), ("partition", J.jint pn),
                   ("replicas", J.jarr (rns.map J.jint))])

/-- `BukuExhibitor.reallocate_partition`: builds the wire JSON
`{"version": "1", "partitions": [entry]}`, then atomically creates
`/admin/reassign_partitions`.  `NodeExistsError` is caught and surfaced as
`false` without mutating the store; `int()` conversion errors propagate. -/
def reallocate_partition (t : String) (p : J) (rs : List J) (store : Store) :
    Except PyErr (Bool × Store) :=
  match wireEntry t p rs with
  | .error e => .error e
  | .ok entry =>
    let j := J.jobj [("version", J.jstr "1"), ("partitions", J.jarr [entry])]
    match alookup store reassignPath with
    | some _ => .ok (false, store)
    | none => .ok (true, aset store reassignPath j)

/-- Modelled from the spec: `BukuExhibitor.reallocate_partitions`, the
list-accepting form of `submit_reassignment`.  It is called by
`SwapPartitionsChange.__perform_swap` but its definition is not under `src/`;
per spec §4.2 it accepts a list of `(topic, partition, replicas)` tuples,
normalises them to the wire JSON `{version:"1", partitions:[...]}` with
integer partitions and replicas, atomically creates
`/admin/reassign_partitions`, and returns true on create, false if the node
already exists. -/
def reallocate_partitions (plan : List (String × J × List J)) (store : Store) :
    Except PyErr (Bool × Store) :=
  match mapME (fun e => wireEntry e.1 e.2.1 e.2.2) plan with
  | .error e => .error e
  | .ok entries =>
    let j := J.jobj [("version", J.jstr "1"), ("partitions", J.jarr entries)]
    match alookup store reassignPath with
    | some _ => .ok (false, store)
    | none => .ok (true, aset store reassignPath j)

/-- Recogniser for a well-formed wire entry: string topic, integer partition,
all-integer replica list. -/
def entryOk : J → Bool
  | .jobj [("topic", .jstr _), ("partition", .jint _), ("replicas", .jarr rs)] =>
    rs.all fun r => match r with | .jint _ => true | _ => false
  | _ => false

/-- Recogniser for the full wire JSON `{version:"1", partitions:[...]}` with
every partition entry well formed. -/
def wireOk : J → Bool
  | .jobj [("version", .jstr v), ("partitions", .jarr es)] =>
    v == "1" && es.all entryOk
  | _ => false

/- ### `BrokerManager` (bubuku/broker.py) -/

/-- The `/brokers/topics/<t>/partitions/<p>/state` JSON as read by
`_have_leadership`: its `leader` field and `isr` array. -/
structure StateJ : Type where
  leader : J
  isr : List J

/-- Python `str(x)` on the JSON scalars that reach it here: `None` renders as
the string `"None"`, ints in decimal, strings unchanged.  Arrays and objects
do not occur in `leader`/`isr` positions and are collapsed to `""`. -/
def pyStrOfJ : J → String
  | .jnull => "None"
  | .jstr s => s
  | .jint n => toString n
  | _ => ""

/-- Python `str(x)` applied to the id manager's `get_broker_id()` result,
which is either a string or `None`; `str(None) = "None"`. -/
def pyStrOfOpt : Option String → String
  | none => "None"
  | some s => s

/-- `BrokerManager._is_clean_election`: reads
`unclean.leader.election.enable`; returns false when the property is unset
or equal to `"true"`, true otherwise. -/
def is_clean_election (value : Option String) : Bool :=
  match value with
  | none => false
  | some v => if v = "true" then false else true

/-- The partition-state scan of `_have_leadership`: walks the states in
order and stops at the first partition whose leader stringifies to the
broker id or whose ISR contains it.  Returns the verdict together with the
number of partition-state nodes read from the store. -/
def scanStates (broker_id : String) : List (String × String × StateJ) → Bool × Nat
  | [] => (false, 0)
  | (_, _, st) :: rest =>
    if pyStrOfJ st.leader = broker_id then (true, 1)
    else if st.isr.any (fun x => pyStrOfJ x = broker_id) then (true, 1)
    else
      let r := scanStates broker_id rest
      (r.1, r.2 + 1)

/-- `BrokerManager._have_leadership`: false without reading any state when
the clean-election gate is inactive; otherwise stringifies the broker id,
returns false if that string is empty (the only falsy string), and else
scans the partition states.  Second component counts state reads. -/
def have_leadership (cfgValue : Option String) (brokerIdRaw : Option String)
    (states : List (String × String × StateJ)) : Bool × Nat :=
  if !is_clean_election cfgValue then (false, 0)
  else
    let broker_id := pyStrOfOpt brokerIdRaw
    if broker_id = "" then (false, 0)
    else scanStates broker_id states

/-- `BrokerManager.stop_kafka_process` return value: after terminating the
subprocess and waiting for the id node to vanish (side effects outside the
claims), it returns `not self._have_leadership()`.  Second component counts
partition-state reads. -/
def stop_kafka_process (cfgValue : Option String) (brokerIdRaw : Option String)
    (states : List (String × String × StateJ)) : Bool × Nat :=
  let r := have_leadership cfgValue brokerIdRaw states
  (!r.1, r.2)

/- ### `SwapPartitionsChange` (bubuku/features/swap_partitions.py) -/

/-- The `TpData` namedtuple `(topic, partition, size, replicas)`.  Replica
entries are broker ids, modelled as strings like the fat/slim ids they are
compared against. -/
structure TpData : Type where
  topic : String
  partition : Int
  size : Int
  replicas : List String
deriving DecidableEq

/-- The quantity `abs(brokers_gap - 2 * abs(tp.size - partition_to_swap_size))`
minimised by `__find_best_swap_candidate`. -/
def newGap (gap s size : Int) : Int :=
  abs (gap - 2 * abs (size - s))

/-- Insertion into a size-descending list, used to model
`candidates.sort(key=attrgetter("size"), reverse=True)`. -/
def sortDescInsert (tp : TpData) : List TpData → List TpData
  | [] => [tp]
  | x :: xs => if tp.size ≤ x.size then x :: sortDescInsert tp xs else tp :: x :: xs

/-- Size-descending sort of the candidate list. -/
def sortDesc : List TpData → List TpData
  | [] => []
  | x :: xs => sortDescInsert x (sortDesc xs)

/-- The scanning loop of `__find_best_swap_candidate`: carries the best
candidate so far and `smallest_new_gap`, updating both on strict
improvement. -/
def bestLoop (gap s : Int) : List TpData → Option TpData → Int → Option TpData × Int
  | [], best, m => (best, m)
  | tp :: rest, best, m =>
    if newGap gap s tp.size < m then bestLoop gap s rest (some tp) (newGap gap s tp.size)
    else bestLoop gap s rest best m

/-- `SwapPartitionsChange.__find_best_swap_candidate`: sorts the candidates
by size descending, then keeps the first strict improvement of
`smallest_new_gap`, initialised to `brokers_gap`. -/
def find_best_swap_candidate (candidates : List TpData) (brokers_gap : Int)
    (partition_to_swap_size : Int) : Option TpData :=
  (bestLoop brokers_gap partition_to_swap_size (sortDesc candidates) none brokers_gap).1

/-- Python `min(candidates, key=attrgetter("size"))`: the first element of
minimal size; `none` models the `ValueError` on an empty sequence. -/
def minBySize : List TpData → Option TpData
  | [] => none
  | tp :: rest =>
    match minBySize rest with
    | none => some tp
    | some m => if tp.size ≤ m.size then some tp else some m

/-- `topic in topics_stats and partition in topics_stats[topic]` followed by
`topics_stats[topic][partition]`. -/
def statLookup (stats : List (String × List (Int × Int))) (t : String) (p : Int) :
    Option Int :=
  (alookup stats t).bind fun d => alookup d p

/-- The merge loop at the top of `run`: per-broker
`broker_stats["topics"]` dictionaries are folded into a single
`topics_stats[topic][partition] = size` mapping, later brokers overriding
earlier ones per `dict.update`.  Partition keys are modelled as integers,
matching the `int(k)` keys of `load_partition_assignment`; the stats
collector that fixes their concrete type is outside `src/`. -/
def merge_topics_stats
    (size_stats : List (String × List (String × List (Int × Int)))) :
    List (String × List (Int × Int)) :=
  size_stats.foldl
    (fun ts bs =>
      bs.2.foldl
        (fun ts te => aset ts te.1 (aupdate (lookupD ts te.1) te.2)) ts)
    []

/-- Appending a candidate to `swap_partition_candidates[broker_id]`,
creating the entry on first use. -/
def addCandidate (b : String) (tp : TpData) (acc : List (String × List TpData)) :
    List (String × List TpData) :=
  aset acc b (lookupD acc b ++ [tp])

/-- One iteration of the loop of `__find_all_swap_candidates` over a
`(topic, partition, replicas)` assignment record: skip when the size is
unknown or the partition lives on both brokers, otherwise append a `TpData`
to the list of whichever of slim/fat holds a replica (slim checked first,
as in the source). -/
def candStep (fat slim : String) (stats : List (String × List (Int × Int)))
    (acc : List (String × List TpData)) (e : String × Int × List String) :
    List (String × List TpData) :=
  match statLookup stats e.1 e.2.1 with
  | none => acc
  | some sz =>
    if fat ∈ e.2.2 ∧ slim ∈ e.2.2 then acc
    else
      let tp : TpData := ⟨e.1, e.2.1, sz, e.2.2⟩
      let acc1 := if slim ∈ e.2.2 then addCandidate slim tp acc else acc
      if fat ∈ e.2.2 then addCandidate fat tp acc1 else acc1

/-- `SwapPartitionsChange.__find_all_swap_candidates` over the loaded
partition assignment. -/
def find_all_swap_candidates (fat slim : String)
    (stats : List (String × List (Int × Int)))
    (assignment : List (String × Int × List String)) :
    List (String × List TpData) :=
  assignment.foldl (candStep fat slim stats) []

/-- Modelled from the spec: `BaseRebalanceChange.should_be_cancelled`
(defined in bubuku/features/rebalance.py, which is not under `src/`) — "do
not run concurrently with any known partition-movement change (the
rebalance family) on any supervisor".  Cancel iff some current action name
belongs to the family; the family itself is a parameter since the spec does
not enumerate it. -/
def should_be_cancelled (family : List String) (current_actions : List String) :
    Bool :=
  current_actions.any fun n => family.contains n

/-- `SwapPartitionsChange.__create_swap_partitions_json`: the two-entry
plan, substituting the counterpart broker id in each replica list. -/
def create_swap_partitions_json (tp1 : TpData) (broker1 : String) (tp2 : TpData)
    (broker2 : String) : List (String × Int × List String) :=
  [(tp1.topic, tp1.partition, tp1.replicas.map fun r => if r = broker1 then broker2 else r),
   (tp2.topic, tp2.partition, tp2.replicas.map fun r => if r = broker2 then broker1 else r)]

/-- `SwapPartitionsChange.__perform_swap`: submits the plan through
`reallocate_partitions`. -/
def perform_swap (plan : List (String × Int × List String)) (store : Store) :
    Except PyErr (Bool × Store) :=
  reallocate_partitions (plan.map fun e => (e.1, J.jint e.2.1, e.2.2.map J.jstr)) store

/-- The per-instance state of a `SwapPartitionsChange`. -/
structure SwapState : Type where
  fat : String
  slim : String
  gap : Int
  sizeStats : List (String × List (String × List (Int × Int)))
  toMove : Option (List (String × Int × List String))

/-- `SwapPartitionsChange.run`.  Returns the boolean the controller sees
(`true` = run again), the updated `to_move`, and the updated store; a
`.error` is an uncaught Python exception escaping `run`.  Note the source's
`if not slim_broker_smallest_partition:` guard can never fire — a `TpData`
namedtuple is always truthy, and before it `min()` (ValueError on an empty
sequence) and the `swap_partition_candidates[...]` subscript (KeyError on a
missing broker key) would already have raised — so it is not part of the
control flow here. -/
def swap_run (family : List String) (st : SwapState) (current_actions : List String)
    (assignment : List (String × Int × List String)) (store : Store) :
    Except PyErr (Bool × Option (List (String × Int × List String)) × Store) :=
  if should_be_cancelled family current_actions then .ok (false, st.toMove, store)
  else
    match st.toMove with
    | some plan =>
      match perform_swap plan store with
      | .error e => .error e
      | .ok (created, store') => .ok (!created, some plan, store')
    | none =>
      let cands := find_all_swap_candidates st.fat st.slim
        (merge_topics_stats st.sizeStats) assignment
      match alookup cands st.slim with
      | none => .error (.keyError st.slim)
      | some slimList =>
        match minBySize slimList with
        | none => .error .valueError
        | some smallest =>
          match alookup cands st.fat with
          | none => .error (.keyError st.fat)
          | some fatList =>
            match find_best_swap_candidate fatList st.gap smallest.size with
            | none => .ok (false, none, store)
            | some f =>
              let plan := create_swap_partitions_json smallest st.slim f st.fat
              match perform_swap plan store with
              | .error e => .error e
              | .ok (created, store') => .ok (!created, some plan, store')

/- ### `Controller` and `Check` (bubuku/controller.py) -/

/-- A queued `Change`: its name and the dynamic-dispatch methods the
controller calls.  `runf` returns `.error` when the change's `run` raises;
`on_remove` has no effect visible to the claims and is not tracked. -/
structure Chg : Type where
  name : String
  canRun : List String → Bool
  runf : List String → Except Unit Bool
  canRunAtExit : Bool

/-- `_exclude_self`: the keys of the running-changes map, minus the entry
`(name, provider_id)` itself. -/
def exclude_self (provider_id name : String) (running : List (String × String)) :
    List String :=
  (running.filter fun kv => (kv.1 != name) || (kv.2 != provider_id)).map fun kv => kv.1

/-- One iteration of the registration loop of `_register_running_changes`:
the head of each queue is asked `can_run` against the peers view; when it
may run and its name is not yet registered, the change is registered both in
the local view and in the store.  Queues are never empty (the controller
deletes a name when its queue empties), so the `[]` branch is unreachable. -/
def registerStep (provider_id : String)
    (acc : List (String × String) × List (String × String))
    (e : String × List Chg) :
    List (String × String) × List (String × String) :=
  match e.2 with
  | [] => acc
  | ch :: _ =>
    if ch.canRun (exclude_self provider_id e.1 acc.1) then
      match alookup acc.1 e.1 with
      | some _ => acc
      | none => (aset acc.1 e.1 provider_id, aset acc.2 e.1 provider_id)
    else acc

/-- `Controller._register_running_changes`: returns the running-changes
view, the updated change registry, and the number of GlobalLock
acquisitions.  With no local changes it returns the empty view without
taking the lock. -/
def register_running_changes (provider_id : String)
    (changes : List (String × List Chg)) (zkReg : List (String × String)) :
    List (String × String) × List (String × String) × Nat :=
  match changes with
  | [] => ([], zkReg, 0)
  | _ =>
    let rz := changes.foldl (registerStep provider_id) (zkReg, zkReg)
    (rz.1, rz.2, 1)

/-- The body of `Controller._run_changes` for one queue `(name, chlist)`:
when this supervisor owns the registered change, the head either runs
(`run` invoked; removal on "done", on exception) or — when the controller
is stopping and the change may not run at exit — is marked for removal
without `run` being called.  Returns the names marked for removal and the
changes whose `run` was invoked. -/
def runHead (running : List (String × String)) (provider_id : String)
    (isRunning : Bool) (name : String) (chlist : List Chg) :
    List String × List Chg :=
  match alookup running name with
  | none => ([], [])
  | some owner =>
    if owner = provider_id then
      match chlist with
      | [] => ([], [])
      | ch :: _ =>
        if isRunning || ch.canRunAtExit then
          match ch.runf (exclude_self provider_id ch.name running) with
          | .ok true => ([], [ch])
          | .ok false => ([ch.name], [ch])
          | .error _ => ([ch.name], [ch])
        else ([ch.name], [])
    else ([], [])

/-- `Controller._run_changes`: steps the head change of every locally-owned
queue; returns `changes_to_remove` together with the list of changes whose
`run` was actually invoked (the invocation log makes "run was not called"
provable). -/
def run_changes (running : List (String × String)) (provider_id : String)
    (isRunning : Bool) : List (String × List Chg) → List String × List Chg
  | [] => ([], [])
  | e :: rest =>
    let h := runHead running provider_id isRunning e.1 e.2
    let t := run_changes running provider_id isRunning rest
    (h.1 ++ t.1, h.2 ++ t.2)

/-- `del self.changes[change_name][0]`, deleting the name when its queue
becomes empty. -/
def popHead (changes : List (String × List Chg)) (name : String) :
    List (String × List Chg) :=
  match alookup changes name with
  | none => changes
  | some l =>
    match l.drop 1 with
    | [] => aremove changes name
    | l' => aset changes name l'

/-- `Controller._release_changes_lock`: pops each removed change locally,
then takes the GlobalLock once to unregister them; with nothing to remove
the lock is not taken.  Third component counts lock acquisitions. -/
def release_changes_lock (changes_to_remove : List String)
    (changes : List (String × List Chg)) (zkReg : List (String × String)) :
    List (String × List Chg) × List (String × String) × Nat :=
  match changes_to_remove with
  | [] => (changes, zkReg, 0)
  | _ =>
    (changes_to_remove.foldl popHead changes,
     changes_to_remove.foldl aremove zkReg, 1)

/-- `Check.check_if_time` at wall-clock time `now` with stored timestamp
`last`: fires iff `last + interval - now <= 0`, and on firing stores `now`
as the new timestamp *before* the check body runs. -/
def check_if_time (interval last now : ℚ) : Bool × ℚ :=
  if last + interval - now ≤ 0 then (true, now) else (false, last)

/-- The times at which a sequence of `check_if_time` calls actually invokes
the underlying `check()`. -/
def firedTimes (interval : ℚ) (last : ℚ) : List ℚ → List ℚ
  | [] => []
  | t :: ts =>
    let s := check_if_time interval last t
    if s.1 then t :: firedTimes interval s.2 ts else firedTimes interval s.2 ts

/-- `Controller._add_change_to_queue`: appends to the per-name queue,
creating it on first use; a `None` result from a check is ignored. -/
def add_change_to_queue (changes : List (String × List Chg)) :
    Option Chg → List (String × List Chg)
  | none => changes
  | some ch => aset changes ch.name (lookupD changes ch.name ++ [ch])

/-- The probe step of `make_step`: run `check_if_time` on every check at
time `now`, enqueueing the change a firing check emits.  A check is
modelled by its interval, its stored timestamp, and the change it would
emit when fired. -/
def probeChecks (now : ℚ) : List (ℚ × ℚ × Option Chg) → List (String × List Chg) →
    List (ℚ × ℚ × Option Chg) × List (String × List Chg)
  | [], changes => ([], changes)
  | (i, l, res) :: rest, changes =>
    let s := check_if_time i l now
    let changes' := if s.1 then add_change_to_queue changes res else changes
    let tail := probeChecks now rest changes'
    ((i, s.2, res) :: tail.1, tail.2)

/-- The controller state touched by `make_step`. -/
structure CtrlState : Type where
  checks : List (ℚ × ℚ × Option Chg)
  changes : List (String × List Chg)
  running : Bool
  zkReg : List (String × String)

/-- `Controller.make_step`: register running changes (locking only when
some exist), execute the owned heads without the lock, release processed
changes (locking only when some were removed), then probe the checks while
still running.  Returns the new state and the number of GlobalLock
acquisitions performed during the step. -/
def make_step (provider_id : String) (now : ℚ) (st : CtrlState) : CtrlState × Nat :=
  let reg := register_running_changes provider_id st.changes st.zkReg
  let ran := run_changes reg.1 provider_id st.running st.changes
  let rel := release_changes_lock ran.1 st.changes reg.2.1
  let probed :=
    if st.running then probeChecks now st.checks rel.1 else (st.checks, rel.1)
  (⟨probed.1, probed.2, st.running, rel.2.1⟩, reg.2.2 + rel.2.2)

/- ### Concrete inputs used by witnesses -/

/-- A concrete change whose `run` reports "not done". -/
def exCh : Chg :=
  ⟨"a", fun _ => true, fun _ => .ok true, false⟩

/-- The spec's S2 fat-candidate list: sizes 60, 55, 40. -/
def candsEx : List TpData :=
  [⟨"U", 0, 60, ["f"]⟩, ⟨"U", 1, 55, ["f"]⟩, ⟨"U", 2, 40, ["f"]⟩]

/- ### Theorems for claims C2 and C3 -/

theorem wireEntry_entryOk {t : String} {p : J} {rs : List J} {e : J}
    (h : wireEntry t p rs = .ok e) : entryOk e = true := by
  unfold wireEntry at h
  cases hp : pyInt p with
  | error err => rw [hp] at h; exact absurd h (by simp)
  | ok pn =>
    rw [hp] at h
    cases hm : mapME pyInt rs with
    | error err => rw [hm] at h; exact absurd h (by simp)
    | ok rns =>
      rw [hm] at h
      injection h with h
      subst h
      simp only [entryOk, List.all_eq_true]
      intro r hr
      rcases List.mem_map.mp hr with ⟨n, _, rfl⟩
      rfl

theorem mapME_wireEntry_all {plan : List (String × J × List J)} {es : List J}
    (h : mapME (fun e => wireEntry e.1 e.2.1 e.2.2) plan = .ok es) :
    es.all entryOk = true := by
  induction plan generalizing es with
  | nil =>
    unfold mapME at h
    injection h with h
    subst h
    rfl
  | cons a as ih =>
    unfold mapME at h
    cases hw : wireEntry a.1 a.2.1 a.2.2 with
    | error err => rw [hw] at h; exact absurd h (by simp)
    | ok e =>
      rw [hw] at h
      cases hm : mapME (fun e => wireEntry e.1 e.2.1 e.2.2) as with
      | error err => rw [hm] at h; exact absurd h (by simp)
      | ok bs =>
        rw [hm] at h
        injection h with h
        subst h
        simp only [List.all_cons, Bool.and_eq_true]
        exact ⟨wireEntry_entryOk hw, ih hm⟩

/-- C2: while the `admin/reassign_partitions` node exists, a
`submit_reassignment` (`reallocate_partition`) call returns false and leaves
the store untouched; while it is absent, the call creates the node holding
the plan JSON and returns true.  The hypothesis restricts attention to plans
whose `int()` conversions succeed (otherwise the source raises before
touching the store, a failure the spec lets propagate). -/
theorem reallocate_partition_singleton (t : String) (p : J) (rs : List J)
    (store : Store) (e : J) (he : wireEntry t p rs = .ok e) :
    ((alookup store reassignPath).isSome →
      reallocate_partition t p rs store = .ok (false, store)) ∧
    (alookup store reassignPath = none →
      reallocate_partition t p rs store =
        .ok (true, aset store reassignPath
          (J.jobj [("version", J.jstr "1"), ("partitions", J.jarr [e])]))) := by
  constructor
  · intro hs
    unfold reallocate_partition
    rw [he]
    cases hl : alookup store reassignPath with
    | none => rw [hl] at hs; exact absurd hs (by simp)
    | some d => rfl
  · intro hs
    unfold reallocate_partition
    rw [he, hs]

/-- C2 witness: a concrete call against an occupied store returns false and
does not mutate it, and the same call against an empty store creates the
node and returns true. -/
theorem reallocate_partition_singleton_witness :
    reallocate_partition "t" (J.jint 0) [J.jint 1] [(reassignPath, J.jnull)] =
      .ok (false, [(reassignPath, J.jnull)]) ∧
    reallocate_partition "t" (J.jint 0) [J.jint 1] [] =
      .ok (true, aset [] reassignPath
        (J.jobj [("version", J.jstr "1"), ("partitions", J.jarr
          [J.jobj [("topic", J.jstr "t"), ("partition", J.jint 0),
                   ("replicas", J.jarr [J.jint 1])]])])) :=
  ⟨(reallocate_partition_singleton "t" (J.jint 0) [J.jint 1]
      [(reassignPath, J.jnull)] _ rfl).1 (by rfl),
   (reallocate_partition_singleton "t" (J.jint 0) [J.jint 1] [] _ rfl).2 rfl⟩

/-- C3: whenever a reassignment submission succeeds (returns true), the node
written to the store holds the normalised wire JSON: version `"1"` and a
partitions array in which every partition number and every replica id is an
integer.  Covers both the single-tuple form (`reallocate_partition`, from
the source) and the list form (`reallocate_partitions`, modelled from the
spec since only its caller is under `src/`). -/
theorem submit_reassignment_normalises :
    (∀ (t : String) (p : J) (rs : List J) (store : Store) (s' : Store),
      reallocate_partition t p rs store = .ok (true, s') →
      ∃ v, s' = aset store reassignPath v ∧ wireOk v = true) ∧
    (∀ (plan : List (String × J × List J)) (store : Store) (s' : Store),
      reallocate_partitions plan store = .ok (true, s') →
      ∃ v, s' = aset store reassignPath v ∧ wireOk v = true) := by
  constructor
  · intro t p rs store s' h
    unfold reallocate_partition at h
    cases hw : wireEntry t p rs with
    | error err => rw [hw] at h; exact absurd h (by simp)
    | ok e =>
      rw [hw] at h
      cases hl : alookup store reassignPath with
      | some d => rw [hl] at h; exact absurd h (by simp)
      | none =>
        rw [hl] at h
        injection h with h
        have h2 : s' = aset store reassignPath
            (J.jobj [("version", J.jstr "1"), ("partitions", J.jarr [e])]) :=
          (congrArg Prod.snd h).symm
        refine ⟨_, h2, ?_⟩
        simp only [wireOk, List.all_cons, List.all_nil, Bool.and_eq_true]
        exact ⟨rfl, wireEntry_entryOk hw, trivial⟩
  · intro plan store s' h
    unfold reallocate_partitions at h
    cases hm : mapME (fun e => wireEntry e.1 e.2.1 e.2.2) plan with
    | error err => rw [hm] at h; exact absurd h (by simp)
    | ok es =>
      rw [hm] at h
      cases hl : alookup store reassignPath with
      | some d => rw [hl] at h; exact absurd h (by simp)
      | none =>
        rw [hl] at h
        injection h with h
        have h2 : s' = aset store reassignPath
            (J.jobj [("version", J.jstr "1"), ("partitions", J.jarr es)]) :=
          (congrArg Prod.snd h).symm
        refine ⟨_, h2, ?_⟩
        simp only [wireOk, Bool.and_eq_true]
        exact ⟨rfl, mapME_wireEntry_all hm⟩

/- ### Theorems for claims C1 and C10 -/

/-- C1 counterexample: the property value `"banana"` — neither `"false"`,
nor `"true"`, nor unset — is treated as *clean* by the code, so the
leadership/ISR scan runs and `stop_kafka_process` returns false when the
broker still leads a partition.  This refutes both halves of the claim: the
configuration is considered clean for a value other than `"false"`, and for
such a value the scan is not skipped and the result is not unconditionally
true. -/
theorem clean_election_gate_counterexample :
    is_clean_election (some "banana") = true ∧
    stop_kafka_process (some "banana") (some "1") [("t", "0", ⟨J.jint 1, []⟩)] =
      (false, 1) :=
  ⟨rfl, rfl⟩

/-- C1 amended: the configuration is considered clean exactly when the
property is *set to something other than `"true"`* (so `"false"`, but also
any other set value); only when the property is unset or `"true"` is
unclean election assumed, the safety scan skipped (zero state reads), and
`stop_kafka_process` true unconditionally. -/
theorem clean_election_gate_amended (v : Option String) :
    (is_clean_election v = true ↔ (v ≠ none ∧ v ≠ some "true")) ∧
    (∀ (brokerIdRaw : Option String) (states : List (String × String × StateJ)),
      is_clean_election v = false →
      stop_kafka_process v brokerIdRaw states = (true, 0)) := by
  constructor
  · cases v with
    | none => simp [is_clean_election]
    | some s =>
      by_cases hs : s = "true"
      · subst hs; simp [is_clean_election]
      · simp [is_clean_election, hs]
  · intro idRaw states h
    simp [stop_kafka_process, have_leadership, h]

/-- C1 amended witness: `"false"` is clean, and with the property `"true"`
a stop call reports safe with zero partition-state reads. -/
theorem clean_election_gate_amended_witness :
    is_clean_election (some "false") = true ∧
    stop_kafka_process (some "true") (some "1") [("t", "0", ⟨J.jint 1, []⟩)] =
      (true, 0) :=
  ⟨(clean_election_gate_amended (some "false")).1.mpr ⟨by decide, by decide⟩,
   (clean_election_gate_amended (some "true")).2 (some "1")
     [("t", "0", ⟨J.jint 1, []⟩)] rfl⟩

/-- C10 counterexample: with the clean-election gate active and the id
manager yielding `None`, Python's `str(None)` is the truthy string
`"None"`, so the scan *does* read partition state — and on a state whose
`leader` is JSON `null` it even matches, making `stop_kafka_process` return
false.  The claim predicted true with zero state reads. -/
theorem stop_falsy_id_counterexample :
    stop_kafka_process (some "false") none [("t", "0", ⟨J.jnull, []⟩)] =
      (false, 1) :=
  rfl

/-- C10 amended: only the empty-string broker id short-circuits (it is the
only id whose `str()` is falsy): then `stop_kafka_process` returns true
without reading any partition state, whatever the gate; an id of `None` is
stringified to `"None"` and the scan proceeds normally. -/
theorem stop_empty_id_amended (cfgValue : Option String)
    (states : List (String × String × StateJ)) :
    stop_kafka_process cfgValue (some "") states = (true, 0) := by
  cases h : is_clean_election cfgValue <;>
    simp [stop_kafka_process, have_leadership, h, pyStrOfOpt]

/- ### Theorems for claims C7 and C8 -/

/-- C7: when the local change map is empty at step start, `make_step`
acquires the GlobalLock zero times: the registration step short-circuits,
nothing runs, nothing is released, and the probe step takes no lock. -/
theorem make_step_no_lock_when_idle (provider_id : String) (now : ℚ)
    (st : CtrlState) (h : st.changes = []) :
    (make_step provider_id now st).2 = 0 := by
  simp [make_step, h, register_running_changes, run_changes, release_changes_lock]

/-- C7 witness: a step on a state with a pending check, no changes, and a
non-empty registry takes no lock. -/
theorem make_step_no_lock_when_idle_witness :
    (make_step "p" 1 ⟨[(5, 0, none)], [], true, [("a", "b")]⟩).2 = 0 :=
  make_step_no_lock_when_idle "p" 1 ⟨[(5, 0, none)], [], true, [("a", "b")]⟩ rfl

theorem firedTimes_spec (interval : ℚ) (hi : 0 ≤ interval) :
    ∀ (times : List ℚ) (last : ℚ),
      (∀ t ∈ firedTimes interval last times, last + interval ≤ t) ∧
      List.Chain' (fun a b => a + interval ≤ b) (firedTimes interval last times) := by
  intro times
  induction times with
  | nil => intro last; exact ⟨by simp [firedTimes], by simp [firedTimes]⟩
  | cons t ts ih =>
    intro last
    by_cases hc : last + interval - t ≤ 0
    · have hf : firedTimes interval last (t :: ts) = t :: firedTimes interval t ts := by
        simp [firedTimes, check_if_time, hc]
      rw [hf]
      obtain ⟨h1, h2⟩ := ih t
      constructor
      · intro u hu
        rcases List.mem_cons.mp hu with rfl | hu
        · linarith
        · have := h1 u hu
          linarith
      · refine List.chain'_cons'.mpr ⟨?_, h2⟩
        intro b hb
        exact h1 b (List.mem_of_mem_head? hb)
    · have hf : firedTimes interval last (t :: ts) = firedTimes interval last ts := by
        simp [firedTimes, check_if_time, hc]
      rw [hf]
      exact ih last

/-- C8: along any sequence of `check_if_time` calls, consecutive
invocations of the underlying `check()` are at least `interval` apart
(measured at invocation times), every invocation happens at least
`interval` after the stored timestamp, and a firing call stores the call
time itself — the timestamp is updated at invocation, before the check
body runs, not at completion. -/
theorem check_cadence (interval last : ℚ) (times : List ℚ) (hi : 0 ≤ interval) :
    List.Chain' (fun a b => a + interval ≤ b) (firedTimes interval last times) ∧
    (∀ t ∈ firedTimes interval last times, last + interval ≤ t) ∧
    (∀ l now, (check_if_time interval l now).1 = true →
      (check_if_time interval l now).2 = now ∧ l + interval ≤ now) := by
  refine ⟨(firedTimes_spec interval hi times last).2,
    (firedTimes_spec interval hi times last).1, ?_⟩
  intro l now h
  by_cases hc : l + interval - now ≤ 0
  · refine ⟨by simp [check_if_time, hc], by linarith⟩
  · exact absurd h (by simp [check_if_time, hc])

/-- C8 witness: with interval 5 from timestamp 0, calls at times
3, 6, 8, 12 fire at 6 and 12, which are at least 5 apart. -/
theorem check_cadence_witness :
    (0 : ℚ) ≤ 5 ∧
    List.Chain' (fun a b => a + 5 ≤ b) (firedTimes 5 0 [3, 6, 8, 12]) :=
  ⟨by norm_num, (check_cadence 5 0 [3, 6, 8, 12] (by norm_num)).1⟩

/- ### Theorems for claim C9 -/

theorem runHead_invoked_exit (running : List (String × String)) (pid name : String)
    (chlist : List Chg) :
    ∀ c ∈ (runHead running pid false name chlist).2, c.canRunAtExit = true := by
  intro c hc
  unfold runHead at hc
  split at hc
  · simp at hc
  · split at hc
    · split at hc
      · simp at hc
      · rename_i ch tl
        split at hc
        · rename_i hcond
          simp only [Bool.false_or] at hcond
          split at hc <;> simp at hc <;> subst hc <;> exact hcond
        · simp at hc
    · simp at hc

theorem runHead_exit_removed (running : List (String × String)) (pid name : String)
    (ch : Chg) (tl : List Chg) (hl : alookup running name = some pid)
    (he : ch.canRunAtExit = false) :
    runHead running pid false name (ch :: tl) = ([ch.name], []) := by
  simp [runHead, hl, he]

/-- C9: during a `make_step` with the running flag cleared, a head change
that this supervisor owns and whose `can_run_at_exit` is false is marked
for removal without its `run` being invoked; and every change whose `run`
is invoked after `stop()` has `can_run_at_exit` true. -/
theorem run_changes_drain (running : List (String × String)) (pid : String)
    (changes : List (String × List Chg)) :
    (∀ name chlist ch, (name, chlist) ∈ changes → chlist.head? = some ch →
      alookup running name = some pid → ch.canRunAtExit = false →
      ch.name ∈ (run_changes running pid false changes).1 ∧
      ch ∉ (run_changes running pid false changes).2) ∧
    (∀ c ∈ (run_changes running pid false changes).2, c.canRunAtExit = true) := by
  induction changes with
  | nil =>
    constructor
    · intro name chlist ch hmem
      simp at hmem
    · intro c hc
      simp [run_changes] at hc
  | cons e rest ih =>
    have hcons : run_changes running pid false (e :: rest) =
        ((runHead running pid false e.1 e.2).1 ++ (run_changes running pid false rest).1,
         (runHead running pid false e.1 e.2).2 ++ (run_changes running pid false rest).2) :=
      rfl
    constructor
    · intro name chlist ch hmem hhd hown hexit
      rcases List.mem_cons.mp hmem with heq | hmem'
      · subst heq
        cases chlist with
        | nil => simp at hhd
        | cons ch0 tl =>
          have hch : ch0 = ch := by
            simpa using hhd
          subst hch
          rw [hcons, runHead_exit_removed running pid name ch0 tl hown hexit]
          constructor
          · exact List.mem_append_left _ (List.mem_singleton.mpr rfl)
          · intro hmem2
            simp only [List.nil_append] at hmem2
            have := ih.2 ch0 hmem2
            rw [hexit] at this
            exact Bool.false_ne_true this
      · obtain ⟨h1, h2⟩ := ih.1 name chlist ch hmem' hhd hown hexit
        rw [hcons]
        constructor
        · exact List.mem_append_right _ h1
        · intro hmem2
          rcases List.mem_append.mp hmem2 with hh | ht
          · have := runHead_invoked_exit running pid e.1 e.2 ch hh
            rw [hexit] at this
            exact Bool.false_ne_true this
          · exact h2 ht
    · intro c hc
      rw [hcons] at hc
      rcases List.mem_append.mp hc with hh | ht
      · exact runHead_invoked_exit running pid e.1 e.2 c hh
      · exact ih.2 c ht

/-- C9 witness: with the flag cleared, an owned head change with
`can_run_at_exit` false is removed and its `run` is never invoked. -/
theorem run_changes_drain_witness :
    exCh.name ∈ (run_changes [("a", "p")] "p" false [("a", [exCh])]).1 ∧
    exCh ∉ (run_changes [("a", "p")] "p" false [("a", [exCh])]).2 :=
  (run_changes_drain [("a", "p")] "p" [("a", [exCh])]).1 "a" [exCh] exCh
    (by simp) rfl rfl rfl

/- ### Theorem for claim C5 -/

/-- C5: when the computed swap-candidate dictionary has no entry for the
slim broker (here: the only sized partition lives on the fat broker "1",
none on slim "2"), `run` does *not* cancel cleanly — the subscript
`swap_partition_candidates[self.slim_broker_id]` raises an uncaught
`KeyError` before the unreachable "no partitions on slim" guard, so no
false is returned and the claimed log-and-cancel path never executes. -/
theorem swap_run_keyerror_on_empty_slim :
    swap_run [] ⟨"1", "2", 100, [("1", [("t", [(0, 10)])])], none⟩ []
      [("t", 0, ["1"])] [] = .error (.keyError "2") :=
  rfl

/- ### Theorems for claim C4 -/

theorem bestLoop_cases (gap s : Int) :
    ∀ (l : List TpData) (best : Option TpData) (m : Int),
      ((bestLoop gap s l best m).1 = best ∧ (bestLoop gap s l best m).2 = m) ∨
      ∃ f ∈ l, (bestLoop gap s l best m).1 = some f ∧
        (bestLoop gap s l best m).2 = newGap gap s f.size ∧
        newGap gap s f.size < m := by
  intro l
  induction l with
  | nil => intro best m; exact Or.inl ⟨rfl, rfl⟩
  | cons tp rest ih =>
    intro best m
    by_cases hc : newGap gap s tp.size < m
    · have hb : bestLoop gap s (tp :: rest) best m =
          bestLoop gap s rest (some tp) (newGap gap s tp.size) := by
        simp [bestLoop, hc]
      rw [hb]
      rcases ih (some tp) (newGap gap s tp.size) with ⟨h1, h2⟩ | ⟨f, hf, h1, h2, h3⟩
      · exact Or.inr ⟨tp, List.mem_cons_self tp rest, h1, h2, hc⟩
      · exact Or.inr ⟨f, List.mem_cons_of_mem tp hf, h1, h2, lt_trans h3 hc⟩
    · have hb : bestLoop gap s (tp :: rest) best m = bestLoop gap s rest best m := by
        simp [bestLoop, hc]
      rw [hb]
      rcases ih best m with h | ⟨f, hf, h1, h2, h3⟩
      · exact Or.inl h
      · exact Or.inr ⟨f, List.mem_cons_of_mem tp hf, h1, h2, h3⟩

theorem bestLoop_le (gap s : Int) :
    ∀ (l : List TpData) (best : Option TpData) (m : Int),
      (bestLoop gap s l best m).2 ≤ m ∧
      ∀ c ∈ l, (bestLoop gap s l best m).2 ≤ newGap gap s c.size := by
  intro l
  induction l with
  | nil =>
    intro best m
    exact ⟨le_refl m, by intro c hc; simp at hc⟩
  | cons tp rest ih =>
    intro best m
    by_cases hc : newGap gap s tp.size < m
    · have hb : bestLoop gap s (tp :: rest) best m =
          bestLoop gap s rest (some tp) (newGap gap s tp.size) := by
        simp [bestLoop, hc]
      rw [hb]
      obtain ⟨h1, h2⟩ := ih (some tp) (newGap gap s tp.size)
      refine ⟨le_of_lt (lt_of_le_of_lt h1 hc), ?_⟩
      intro c hmem
      rcases List.mem_cons.mp hmem with rfl | hmem'
      · exact h1
      · exact h2 c hmem'
    · have hb : bestLoop gap s (tp :: rest) best m = bestLoop gap s rest best m := by
        simp [bestLoop, hc]
      rw [hb]
      obtain ⟨h1, h2⟩ := ih best m
      refine ⟨h1, ?_⟩
      intro c hmem
      rcases List.mem_cons.mp hmem with rfl | hmem'
      · exact le_trans h1 (not_lt.mp hc)
      · exact h2 c hmem'

theorem sortDescInsert_perm (tp : TpData) (l : List TpData) :
    List.Perm (sortDescInsert tp l) (tp :: l) := by
  induction l with
  | nil => exact List.Perm.refl [tp]
  | cons x xs ih =>
    by_cases hc : tp.size ≤ x.size
    · have hb : sortDescInsert tp (x :: xs) = x :: sortDescInsert tp xs := by
        simp [sortDescInsert, hc]
      rw [hb]
      exact (ih.cons x).trans (List.Perm.swap tp x xs)
    · have hb : sortDescInsert tp (x :: xs) = tp :: x :: xs := by
        simp [sortDescInsert, hc]
      rw [hb]

theorem sortDesc_perm (l : List TpData) : List.Perm (sortDesc l) l := by
  induction l with
  | nil => exact List.Perm.refl []
  | cons x xs ih => exact (sortDescInsert_perm x (sortDesc xs)).trans (ih.cons x)

/-- C4: the best-swap selection returns a candidate only when its new gap
`|gap - 2|f.size - s||` is strictly below `gap`; any returned candidate
minimises the new gap over all candidates; when no candidate goes strictly
below `gap`, nothing is returned and `run` cancels (returns false with the
store untouched and no plan retained). -/
theorem swap_candidate_selection (cands : List TpData) (gap s : Int)
    (hg : 0 < gap) :
    (∀ f, find_best_swap_candidate cands gap s = some f →
      f ∈ cands ∧ newGap gap s f.size < gap ∧
      ∀ c ∈ cands, newGap gap s f.size ≤ newGap gap s c.size) ∧
    ((∀ c ∈ cands, gap ≤ newGap gap s c.size) →
      find_best_swap_candidate cands gap s = none) ∧
    (∀ (family : List String) (st : SwapState) (curr : List String)
       (asg : List (String × Int × List String)) (store : Store)
       (slimL : List TpData) (sm : TpData) (fatL : List TpData),
      should_be_cancelled family curr = false →
      st.toMove = none →
      alookup (find_all_swap_candidates st.fat st.slim
        (merge_topics_stats st.sizeStats) asg) st.slim = some slimL →
      minBySize slimL = some sm →
      alookup (find_all_swap_candidates st.fat st.slim
        (merge_topics_stats st.sizeStats) asg) st.fat = some fatL →
      find_best_swap_candidate fatL st.gap sm.size = none →
      swap_run family st curr asg store = .ok (false, none, store)) := by
  refine ⟨?_, ?_, ?_⟩
  · intro f hf
    unfold find_best_swap_candidate at hf
    rcases bestLoop_cases gap s (sortDesc cands) none gap with ⟨h1, _⟩ |
      ⟨g, hgmem, h1, h2, h3⟩
    · rw [h1] at hf
      exact absurd hf (by simp)
    · rw [h1] at hf
      injection hf with hf
      subst hf
      refine ⟨(sortDesc_perm cands).mem_iff.mp hgmem, h3, ?_⟩
      intro c hc
      have hc' : c ∈ sortDesc cands := (sortDesc_perm cands).mem_iff.mpr hc
      have hle := (bestLoop_le gap s (sortDesc cands) none gap).2 c hc'
      rw [h2] at hle
      exact hle
  · intro hall
    unfold find_best_swap_candidate
    rcases bestLoop_cases gap s (sortDesc cands) none gap with ⟨h1, _⟩ |
      ⟨f, hfmem, _, _, h3⟩
    · exact h1
    · have hf : f ∈ cands := (sortDesc_perm cands).mem_iff.mp hfmem
      exact absurd h3 (not_lt.mpr (hall f hf))
  · intro family st curr asg store slimL sm fatL hcan htm hslim hmin hfat hbest
    simp [swap_run, hcan, htm, hslim, hmin, hfat, hbest]

/-- C4 witness (the spec's S2 numbers): with gap 100 and slim size 10, the
fat candidate of size 60 is selected, its new gap 0 is strictly below 100
and minimal among the candidates. -/
theorem swap_candidate_selection_witness :
    (0 : Int) < 100 ∧
    ((⟨"U", 0, 60, ["f"]⟩ : TpData) ∈ candsEx ∧
      newGap 100 10 60 < 100 ∧
      ∀ c ∈ candsEx, newGap 100 10 60 ≤ newGap 100 10 c.size) :=
  ⟨by norm_num,
   (swap_candidate_selection candsEx 100 10 (by norm_num)).1 ⟨"U", 0, 60, ["f"]⟩ rfl⟩

/- ### Theorems for claim C6 -/

theorem alookup_aset {κ α : Type} [DecidableEq κ] (d : List (κ × α)) (k : κ)
    (v : α) (k' : κ) :
    alookup (aset d k v) k' = if k = k' then some v else alookup d k' := by
  induction d with
  | nil => simp [aset, alookup]
  | cons kv rest ih =>
    obtain ⟨k0, v0⟩ := kv
    by_cases h0 : k0 = k
    · subst h0
      by_cases h1 : k0 = k'
      · subst h1
        simp [aset, alookup]
      · simp [aset, alookup, h1]
    · by_cases h1 : k0 = k'
      · subst h1
        have hk : ¬k = k0 := fun h => h0 h.symm
        simp [aset, alookup, h0, hk]
      · simp [aset, alookup, h0, h1, ih]

theorem mem_lookupD_addCandidate (b b' : String) (tp tp' : TpData)
    (acc : List (String × List TpData)) :
    tp' ∈ lookupD (addCandidate b tp acc) b' ↔
      tp' ∈ lookupD acc b' ∨ (b' = b ∧ tp' = tp) := by
  unfold addCandidate lookupD
  rw [alookup_aset]
  by_cases hb : b = b'
  · subst hb
    simp [lookupD]
  · simp [hb, Ne.symm hb]

theorem mem_lookupD_candStep (fat slim : String)
    (stats : List (String × List (Int × Int)))
    (acc : List (String × List TpData)) (e : String × Int × List String)
    (b : String) (tp : TpData) :
    tp ∈ lookupD (candStep fat slim stats acc e) b ↔
      tp ∈ lookupD acc b ∨
      (tp.topic = e.1 ∧ tp.partition = e.2.1 ∧ tp.replicas = e.2.2 ∧
       statLookup stats e.1 e.2.1 = some tp.size ∧
       ¬(fat ∈ e.2.2 ∧ slim ∈ e.2.2) ∧
       ((b = slim ∧ slim ∈ e.2.2) ∨ (b = fat ∧ fat ∈ e.2.2))) := by
  obtain ⟨t1, p1, r1⟩ := e
  obtain ⟨tt, tpp, tsz, trep⟩ := tp
  unfold candStep
  dsimp only
  split
  · rename_i hs
    simp [hs]
  · rename_i sz hs
    rw [hs]
    by_cases hboth : fat ∈ r1 ∧ slim ∈ r1
    · rw [if_pos hboth]
      simp [hboth.1, hboth.2]
    · rw [if_neg hboth]
      by_cases hfat : fat ∈ r1 <;> by_cases hslim : slim ∈ r1
      · exact absurd ⟨hfat, hslim⟩ hboth
      · rw [if_pos hfat, if_neg hslim, mem_lookupD_addCandidate]
        constructor
        · rintro (h | ⟨hb, heq⟩)
          · exact Or.inl h
          · injection heq with h1 h2 h3 h4
            exact Or.inr ⟨h1, h2, h4, by rw [h3], hboth, Or.inr ⟨hb, hfat⟩⟩
        · rintro (h | ⟨h1, h2, h3, h4, h5, (⟨hb, hin⟩ | ⟨hb, hin⟩)⟩)
          · exact Or.inl h
          · exact absurd hin hslim
          · have hsz : sz = tsz := Option.some.inj h4
            exact Or.inr ⟨hb, by rw [h1, h2, h3, ← hsz]⟩
      · rw [if_neg hfat, if_pos hslim, mem_lookupD_addCandidate]
        constructor
        · rintro (h | ⟨hb, heq⟩)
          · exact Or.inl h
          · injection heq with h1 h2 h3 h4
            exact Or.inr ⟨h1, h2, h4, by rw [h3], hboth, Or.inl ⟨hb, hslim⟩⟩
        · rintro (h | ⟨h1, h2, h3, h4, h5, (⟨hb, hin⟩ | ⟨hb, hin⟩)⟩)
          · exact Or.inl h
          · have hsz : sz = tsz := Option.some.inj h4
            exact Or.inr ⟨hb, by rw [h1, h2, h3, ← hsz]⟩
          · exact absurd hin hfat
      · rw [if_neg hfat, if_neg hslim]
        constructor
        · exact Or.inl
        · rintro (h | ⟨h1, h2, h3, h4, h5, (⟨hb, hin⟩ | ⟨hb, hin⟩)⟩)
          · exact h
          · exact absurd hin hslim
          · exact absurd hin hfat

theorem mem_lookupD_find_all_aux (fat slim : String)
    (stats : List (String × List (Int × Int))) :
    ∀ (asg : List (String × Int × List String))
      (acc : List (String × List TpData)) (b : String) (tp : TpData),
      tp ∈ lookupD (asg.foldl (candStep fat slim stats) acc) b ↔
        tp ∈ lookupD acc b ∨
        ∃ e ∈ asg, tp.topic = e.1 ∧ tp.partition = e.2.1 ∧
          tp.replicas = e.2.2 ∧
          statLookup stats e.1 e.2.1 = some tp.size ∧
          ¬(fat ∈ e.2.2 ∧ slim ∈ e.2.2) ∧
          ((b = slim ∧ slim ∈ e.2.2) ∨ (b = fat ∧ fat ∈ e.2.2)) := by
  intro asg
  induction asg with
  | nil => intro acc b tp; simp
  | cons e rest ih =>
    intro acc b tp
    rw [List.foldl_cons, ih, mem_lookupD_candStep]
    constructor
    · rintro ((h | h) | ⟨e', he', h⟩)
      · exact Or.inl h
      · exact Or.inr ⟨e, List.mem_cons_self e rest, h⟩
      · exact Or.inr ⟨e', List.mem_cons_of_mem e he', h⟩
    · rintro (h | ⟨e', he', h⟩)
      · exact Or.inl (Or.inl h)
      · rcases List.mem_cons.mp he' with rfl | he''
        · exact Or.inl (Or.inr h)
        · exact Or.inr ⟨e', he'', h⟩

/-- C6: a partition of the loaded assignment lands in the swap-candidate
set of the slim (resp. fat) broker iff its size is known in the merged
stats and it is replicated on that broker but not on the other; and any
candidate ever returned has a known size and is not replicated on both. -/
theorem swap_candidate_characterisation (fat slim : String)
    (stats : List (String × List (Int × Int)))
    (asg : List (String × Int × List String)) :
    (∀ (t : String) (p : Int) (r : List String) (sz : Int),
      (t, p, r) ∈ asg → statLookup stats t p = some sz →
      (((⟨t, p, sz, r⟩ : TpData) ∈
          lookupD (find_all_swap_candidates fat slim stats asg) slim) ↔
        (slim ∈ r ∧ fat ∉ r)) ∧
      (((⟨t, p, sz, r⟩ : TpData) ∈
          lookupD (find_all_swap_candidates fat slim stats asg) fat) ↔
        (fat ∈ r ∧ slim ∉ r))) ∧
    (∀ (b : String) (tp : TpData),
      tp ∈ lookupD (find_all_swap_candidates fat slim stats asg) b →
      statLookup stats tp.topic tp.partition = some tp.size ∧
      ¬(fat ∈ tp.replicas ∧ slim ∈ tp.replicas)) := by
  have hmem := mem_lookupD_find_all_aux fat slim stats asg []
  constructor
  · intro t p r sz hasg hsz
    constructor
    · rw [find_all_swap_candidates, hmem]
      constructor
      · rintro (h | ⟨e', he', h1, h2, h3, h4, h5, (⟨hb, hin⟩ | ⟨hb, hin⟩)⟩)
        · simp [lookupD, alookup] at h
        · dsimp only at h3
          rw [← h3] at hin h5
          exact ⟨hin, fun hf => h5 ⟨hf, hin⟩⟩
        · dsimp only at h3
          rw [← h3] at hin h5
          exact absurd ⟨hin, by rw [hb]; exact hin⟩ h5
      · rintro ⟨hin, hout⟩
        exact Or.inr ⟨(t, p, r), hasg, rfl, rfl, rfl, hsz,
          fun hb => hout hb.1, Or.inl ⟨rfl, hin⟩⟩
    · rw [find_all_swap_candidates, hmem]
      constructor
      · rintro (h | ⟨e', he', h1, h2, h3, h4, h5, (⟨hb, hin⟩ | ⟨hb, hin⟩)⟩)
        · simp [lookupD, alookup] at h
        · dsimp only at h3
          rw [← h3] at hin h5
          exact absurd ⟨by rw [hb]; exact hin, hin⟩ h5
        · dsimp only at h3
          rw [← h3] at hin h5
          exact ⟨hin, fun hs => h5 ⟨hin, hs⟩⟩
      · rintro ⟨hin, hout⟩
        exact Or.inr ⟨(t, p, r), hasg, rfl, rfl, rfl, hsz,
          fun hb => hout hb.2, Or.inr ⟨rfl, hin⟩⟩
  · intro b tp h
    rw [find_all_swap_candidates, hmem] at h
    rcases h with h | ⟨e', he', h1, h2, h3, h4, h5, hd⟩
    · simp [lookupD, alookup] at h
    · rw [h1, h2, h3]
      exact ⟨h4, h5⟩

/-- C6 witness: a partition sized 7 and replicated only on the slim broker
"s" is returned as a slim-side candidate. -/
theorem swap_candidate_characterisation_witness :
    (⟨"t", 0, 7, ["s", "x"]⟩ : TpData) ∈
      lookupD (find_all_swap_candidates "f" "s" [("t", [(0, 7)])]
        [("t", 0, ["s", "x"])]) "s" :=
  (((swap_candidate_characterisation "f" "s" [("t", [(0, 7)])]
      [("t", 0, ["s", "x"])]).1 "t" 0 ["s", "x"] 7 (by simp) rfl).1).mpr
    ⟨by decide, by decide⟩

/-- C3 witness: a concrete submission with a string partition "3" and an
integer replica is normalised to the all-integer wire JSON. -/
theorem submit_reassignment_normalises_witness :
    ∃ v, [(reassignPath, J.jobj [("version", J.jstr "1"), ("partitions",
        J.jarr [J.jobj [("topic", J.jstr "t"), ("partition", J.jint 3),
                        ("replicas", J.jarr [J.jint 1])]])])] =
      aset [] reassignPath v ∧ wireOk v = true :=
  submit_reassignment_normalises.1 "t" (J.jstr "3") [J.jint 1] [] _ (by rfl)
